import Mathlib

/-!
Shallow embedding of the core pipeline of pod_memory_metrics.py:

* the time-range setup, validation and 24h chunking of get_pod_metrics
  (lines 98-115),
* the per-chunk series merge of get_pod_metrics (lines 170-199),
* the per-(chunk, metric) query loop with its non-fatal exception handling
  (lines 126-202),
* the per-entity reduction to one row of main (lines 458-565), including
  tag parsing (lines 463-471) and base-name suffix stripping
  (get_base_pod_name, lines 310-327),
* the result sorting of main (lines 567-585).

Modelling conventions: datetime values and durations are integer seconds;
Datadog point timestamps (milliseconds) and metric values are rationals
(Python floats, whose rounding none of the verified properties touch);
Python None is Option.none; Python dicts keyed by strings or tuples are
either association lists in insertion order (when insertion order matters)
or functions (when keys are updated independently); Python's stable sort
(ascending on a key, or descending via reverse=True) is a stable insertion
sort on the corresponding total preorder; Python string comparison is
code-point lexicographic order, modelled structurally on the character
list so that it evaluates inside the kernel.
-/

/-- A point of a Datadog pointlist: (timestamp in milliseconds, value or
null).  Null-valued points come from the backend and must be skipped, not
read as zero. -/
abbrev Point : Type := ℚ × Option ℚ

/-- One raw series of a query result dict: its scope string, its tag set
and its pointlist (the other keys of the dict are never read by the
merge or the reduction, so they are not modelled). -/
structure Series where
  scope : String
  tag_set : List String
  pointlist : List Point
deriving DecidableEq

/-- The per-entity reduced record appended to pod_data
(pod_memory_metrics.py lines 550-565).  The source dict's key "namespace"
is a Lean keyword, so the field is named pod_namespace here.  Note the
dict has exactly these fourteen keys: in particular it carries no status
field of any kind. -/
structure PodRow where
  cluster : String
  pod_namespace : String
  pod : String
  memory_max : ℚ
  memory_avg : ℚ
  memory_request : ℚ
  memory_limit : ℚ
  memory_percent : ℚ
  cpu_max : ℚ
  cpu_avg : ℚ
  cpu_request : ℚ
  cpu_limit : ℚ
  cpu_percent : ℚ
  base_name : String
deriving DecidableEq

/-! ### Python string order, structurally -/

/-- Python's `<` on strings (code-point lexicographic), on character
lists.  Defined structurally so the kernel can evaluate it (Lean's own
String.lt is decided through an iterator loop the kernel cannot reduce). -/
def listCharLt : List Char → List Char → Bool
  | [], [] => false
  | [], _ :: _ => true
  | _ :: _, [] => false
  | a :: as, b :: bs => if a < b then true else if b < a then false else listCharLt as bs

/-- Python's `<=` on strings (code-point lexicographic), on character
lists. -/
def listCharLe : List Char → List Char → Bool
  | [], _ => true
  | _ :: _, [] => false
  | a :: as, b :: bs => if a < b then true else if b < a then false else listCharLe as bs

/-- Python string `<=` as a proposition, used as the sort relation for
`sorted` on tag strings. -/
def strLe (a b : String) : Prop := listCharLe a.toList b.toList = true

instance : DecidableRel strLe := fun a b =>
  inferInstanceAs (Decidable (listCharLe a.toList b.toList = true))

/-! ### Time Range Planner (get_pod_metrics lines 98-115) -/

/-- The chunk size, timedelta(hours=24) in seconds (line 113). -/
def chunkSize : Int := 86400

/-- The 7-day maximum history, timedelta(days=7) in seconds (line 104). -/
def maxHistory : Int := 7 * 86400

/-- The while loop of lines 110-115, splitting [s, e) into chunks of at
most 24 hours.  The fuel argument only bounds the number of loop
iterations so the recursion is structural; (e - s).toNat always suffices,
because every iteration advances the current start by at least one
second. -/
def chunkLoop : Nat → Int → Int → List (Int × Int)
  | 0, _, _ => []
  | fuel + 1, s, e =>
    if s < e then
      (s, min (s + chunkSize) e) :: chunkLoop fuel (min (s + chunkSize) e) e
    else []

/-- The chunk list get_pod_metrics builds for the range [s, e). -/
def timeChunks (s e : Int) : List (Int × Int) := chunkLoop (e - s).toNat s e

/-- Decides that a chunk list is an ordered, contiguous, non-overlapping
partition of [s, e): the first chunk starts at s, every chunk is
nonempty, each chunk starts exactly where the previous one ended, and the
last one ends at e. -/
def chunksCoverB : Int → List (Int × Int) → Int → Bool
  | s, [], e => s == e
  | s, (a, b) :: rest, e => a == s && decide (s < b) && chunksCoverB b rest e

/-- The time-range setup and validation of get_pod_metrics (lines
98-115): the end_time argument is overwritten with now (line 100),
start_time defaults to now minus one hour (line 101), a range of at least
7 days plus 1 minute raises ValueError (lines 104-107, "Allow exactly
7d"), and otherwise the range is split into 24h chunks (lines 110-115).
The Except models the raised ValueError. -/
def planTimeRange (now : Int) (start_time end_time : Option Int) :
    Except String (List (Int × Int)) :=
  let endT : Int := now
  let startT : Int := start_time.getD (now - 3600)
  if maxHistory + 60 ≤ endT - startT then
    Except.error "Time range too large. Maximum is 7 days (7d)"
  else
    Except.ok (timeChunks startT endT)

/-- True when the planning step raised. -/
def planFails (r : Except String (List (Int × Int))) : Bool :=
  match r with
  | Except.error _ => true
  | Except.ok _ => false

/-! ### Series Merger (get_pod_metrics lines 170-199) -/

/-- One step of the Python dict comprehension that indexes points by
timestamp (line 193): a point whose timestamp is already a key overwrites
the stored point in place (keeping the key's original position), any
other point is appended.  The association is represented by the stored
points themselves, keyed by their timestamps. -/
def updDict (m : List Point) (p : Point) : List Point :=
  if m.any (fun q => decide (q.1 = p.1)) then
    m.map (fun q => if q.1 = p.1 then p else q)
  else m ++ [p]

/-- The values of the timestamp-keyed dict built from a point list
(line 193): one point per distinct timestamp, first-occurrence key order,
last-occurrence value. -/
def dedupByTs (ps : List Point) : List Point := ps.foldl updDict []

/-- The sort key of line 194: points compared by timestamp. -/
def ptLe (p q : Point) : Prop := p.1 ≤ q.1

instance : DecidableRel ptLe := fun p q => inferInstanceAs (Decidable (p.1 ≤ q.1))

/-- Stable ascending sort by timestamp (line 194). -/
def sortByTs (ps : List Point) : List Point := List.insertionSort ptLe ps

/-- Lines 191-195: concatenate the two point lists, deduplicate by
timestamp through the dict comprehension, and sort ascending by
timestamp. -/
def mergePoints (ex new : List Point) : List Point := sortByTs (dedupByTs (ex ++ new))

/-- The merge key of lines 180 and 186: the scope together with the
sorted tag set, so the tag set is compared order-insensitively. -/
def seriesKey (s : Series) : String × List String :=
  (s.scope, List.insertionSort strLe s.tag_set)

/-- Updates the last series of the list whose key equals that of ns (the
series existing_lookup maps the key to, since the dict comprehension of
lines 179-182 keeps the last series per key), merging ns's pointlist into
its pointlist (lines 189-195). -/
def updLast (l : List Series) (ns : Series) : List Series :=
  match l with
  | [] => []
  | e :: es =>
    if es.any (fun x => decide (seriesKey x = seriesKey ns)) then e :: updLast es ns
    else if seriesKey e = seriesKey ns then
      { e with pointlist := mergePoints e.pointlist ns.pointlist } :: es
    else e :: es

/-- The merge loop of lines 184-197 for one later-window result: the
state is (the original series with pointlists updated in place, the new
series appended so far).  A new series whose key is among the original
keys is merged into the last original series with that key — the lookup
of lines 179-182 is built once from the original list, so series appended
during the loop are never merge targets and a repeated fresh key is
appended twice, exactly as in the source.  Line 199 then stores the
updated list followed by the appended ones. -/
def mergeChunkSeries (existing news : List Series) : List Series :=
  let r := news.foldl
    (fun (st : List Series × List Series) ns =>
      if st.1.any (fun es => decide (seriesKey es = seriesKey ns)) then
        (updLast st.1 ns, st.2)
      else (st.1, st.2 ++ [ns]))
    (existing, [])
  r.1 ++ r.2

/-! ### Metric Query Dispatcher (get_pod_metrics lines 126-202) -/

/-- The 8 logical metric names of the dict at lines 148-157, in its
insertion order. -/
def logicalMetrics : List String :=
  ["memory_max", "memory_avg", "memory_limit", "memory_request",
   "cpu_max", "cpu_avg", "cpu_limit", "cpu_request"]

/-- Lines 170-199 for one (chunk, metric) response: the first response
for a metric is stored as is, every later one is merged into the stored
series list. -/
def mergeStep (st : Option (List Series)) (res : List Series) : Option (List Series) :=
  match st with
  | none => some res
  | some ex => some (mergeChunkSeries ex res)

/-- The inner metric loop of lines 148-202 for one chunk.  The oracle
fetch abstracts api_instance.query_metrics: some gives the series list of
the response, none means the call raised.  The try/except of lines
163-202 absorbs the exception (a warning is printed, the state for that
metric is left untouched) and the loop continues with the next metric.
all_results is a dict keyed by the metric name and each iteration touches
only its own key, so the dict is modelled as a function updated
pointwise. -/
def processChunk (fetch : Int × Int → String → Option (List Series)) (c : Int × Int)
    (st : String → Option (List Series)) : String → Option (List Series) :=
  fun m =>
    if m ∈ logicalMetrics then
      match fetch c m with
      | none => st m
      | some res => mergeStep (st m) res
    else st m

/-- The chunk loop of lines 126-202: all_results starts empty and every
chunk is processed in order, whatever the individual query outcomes. -/
def runDispatch (fetch : Int × Int → String → Option (List Series))
    (chunks : List (Int × Int)) : String → Option (List Series) :=
  chunks.foldl (fun st c => processChunk fetch c st) (fun _ => none)

/-! ### Entity Reducer (main lines 458-565) -/

/-- Python's tag.split(':', 1) restricted to tags that contain a colon
(line 466): the characters before the first colon and all characters
after it. -/
def splitFirstColon : List Char → Option (List Char × List Char)
  | [] => none
  | c :: cs =>
    if c = ':' then some ([], cs)
    else (splitFirstColon cs).map (fun r => (c :: r.1, r.2))

/-- The tag dict of lines 463-467 read at one key with default "unknown"
(lines 469-471).  The dict comprehension keeps the last value written for
a key, so the lookup scans the tag set from the end. -/
def tagLookup (tag_set : List String) (key : String) : String :=
  match tag_set.reverse.findSome? (fun t =>
    match splitFirstColon t.toList with
    | some kv => if String.mk kv.1 = key then some (String.mk kv.2) else none
    | none => none) with
  | some v => v
  | none => "unknown"

/-- The extraction loop used for each of the 8 metrics (for example lines
477-480): scan the pointlist from the last point to the first and return
the first non-null value found, if any. -/
def latestNonNull (ps : List Point) : Option ℚ := ps.reverse.findSome? Prod.snd

/-- A lowercase hex digit, the class of 0-9a-f in get_base_pod_name's
patterns. -/
def isHexDigitLower (c : Char) : Bool := c.isDigit || ('a' ≤ c && c ≤ 'f')

/-- The class of 0-9a-z in get_base_pod_name's patterns. -/
def isLowerAlnum (c : Char) : Bool := c.isDigit || ('a' ≤ c && c ≤ 'z')

/-- Full match of the suffix pattern of line 314 (kubernetes style, a
dash, 8 to 10 lowercase hex digits, a dash, 5 to 7 characters of 0-9a-z,
anchored at the end): the whole character list is such a suffix.  The
existential over the hex run length captures the regex engine's
backtracking over the bounded repeat. -/
def matchHashPod (cs : List Char) : Bool :=
  match cs with
  | '-' :: rest =>
    [8, 9, 10].any (fun n =>
      (rest.take n).length == n && (rest.take n).all isHexDigitLower &&
      match rest.drop n with
      | '-' :: tl => decide (5 ≤ tl.length) && decide (tl.length ≤ 7) && tl.all isLowerAlnum
      | _ => false)
  | _ => false

/-- Full match of the hash-suffix pattern of line 315: a dash then 8 to
16 lowercase hex digits, anchored at the end. -/
def matchHash (cs : List Char) : Bool :=
  match cs with
  | '-' :: rest =>
    decide (8 ≤ rest.length) && decide (rest.length ≤ 16) && rest.all isHexDigitLower
  | _ => false

/-- Full match of the numbered-suffix pattern of line 316: a dash then
one or more digits, anchored at the end. -/
def matchOrdinal (cs : List Char) : Bool :=
  match cs with
  | '-' :: rest => !rest.isEmpty && rest.all Char.isDigit
  | _ => false

/-- Full match of the generic random-suffix pattern of line 317: a dash
then 5 to 10 characters of a-z0-9, anchored at the end. -/
def matchRandom (cs : List Char) : Bool :=
  match cs with
  | '-' :: rest =>
    decide (5 ≤ rest.length) && decide (rest.length ≤ 10) && rest.all isLowerAlnum
  | _ => false

/-- re.search with an end-anchored pattern: the start index of the
leftmost match, i.e. the least index whose suffix matches the pattern in
full. -/
def findFrom (f : List Char → Bool) : List Char → Option Nat
  | [] => if f [] then some 0 else none
  | c :: cs => if f (c :: cs) then some 0 else (findFrom f cs).map (· + 1)

/-- get_base_pod_name (lines 310-327): try the four suffix patterns in
order, and at the first one that matches strip the suffix from the match
start on; at most one pattern is applied. -/
def get_base_pod_name (pod_name : String) : String :=
  let cs := pod_name.toList
  let base :=
    match findFrom matchHashPod cs with
    | some i => cs.take i
    | none =>
      match findFrom matchHash cs with
      | some i => cs.take i
      | none =>
        match findFrom matchOrdinal cs with
        | some i => cs.take i
        | none =>
          match findFrom matchRandom cs with
          | some i => cs.take i
          | none => cs
  String.mk base

/-- The body of the per-entity loop of main (lines 458-565) for one
EntityKey, given the already looked-up pointlists of the 8 metrics (an
absent key behaves as an empty pointlist: the extraction loop then finds
nothing, exactly as when the lookup of line 476 etc. fails).  Returns
none when the entity is skipped (line 459: empty memory-max pointlist;
line 546: no memory-max value or below the threshold), else the row of
lines 550-565.  Note every field except memory_max is coerced with
Python's `or 0`, which maps a missing (None) value — and only
incidentally an exact 0.0 — to 0, i.e. Option.getD 0 here; and that the
local latest_cpu_timestamp of line 511 is dead: no field of the row
depends on it. -/
def reduceEntity (threshold : ℚ) (scope : String) (tag_set : List String)
    (memMaxPts memAvgPts memReqPts memLimPts cpuMaxPts cpuAvgPts cpuReqPts cpuLimPts :
      List Point) : Option PodRow :=
  if memMaxPts = [] then none
  else
    let cluster := tagLookup tag_set "kube_cluster_name"
    let nsName := tagLookup tag_set "kube_namespace"
    let pod := tagLookup tag_set "pod_name"
    let memory_max := (latestNonNull memMaxPts).map (fun v => v / (1024 * 1024))
    let memory_avg := (latestNonNull memAvgPts).map (fun v => v / (1024 * 1024))
    let memory_request := (latestNonNull memReqPts).map (fun v => v / (1024 * 1024))
    let memory_limit := (latestNonNull memLimPts).map (fun v => v / (1024 * 1024))
    let cpu_max := (latestNonNull cpuMaxPts).map (fun v => v / 1000000000)
    let cpu_avg := (latestNonNull cpuAvgPts).map (fun v => v / 1000000000)
    let cpu_request := latestNonNull cpuReqPts
    let cpu_limit := latestNonNull cpuLimPts
    let memory_percent :=
      match memory_max, memory_limit with
      | some mx, some ml => if 0 < ml then some (mx / ml * 100) else none
      | _, _ => none
    let cpu_percent :=
      match cpu_max, cpu_limit with
      | some cx, some cl => if 0 < cl then some (cx / cl * 100) else none
      | _, _ => none
    match memory_max with
    | none => none
    | some mx =>
      if mx < threshold then none
      else some {
        cluster := cluster
        pod_namespace := nsName
        pod := pod
        memory_max := mx
        memory_avg := memory_avg.getD 0
        memory_request := memory_request.getD 0
        memory_limit := memory_limit.getD 0
        memory_percent := memory_percent.getD 0
        cpu_max := cpu_max.getD 0
        cpu_avg := cpu_avg.getD 0
        cpu_request := cpu_request.getD 0
        cpu_limit := cpu_limit.getD 0
        cpu_percent := cpu_percent.getD 0
        base_name := get_base_pod_name pod }

/-! ### Row Sorter (main lines 567-585) -/

/-- Ascending by memory_max (the "Memory (low to high)" branch, lines
571-573: reverse is set to False). -/
def rowMemLe (x y : PodRow) : Prop := x.memory_max ≤ y.memory_max

instance : DecidableRel rowMemLe := fun x y =>
  inferInstanceAs (Decidable (x.memory_max ≤ y.memory_max))

/-- Descending by cpu_max (the "CPU (high to low)" branch, lines 574-575,
with reverse left True).  The source guards x['cpu_max'] is not None, but
every row stores a number for cpu_max (line 559 coerces None to 0), so
the guard never fires and the key is cpu_max itself. -/
def rowCpuGe (x y : PodRow) : Prop := y.cpu_max ≤ x.cpu_max

instance : DecidableRel rowCpuGe := fun x y =>
  inferInstanceAs (Decidable (y.cpu_max ≤ x.cpu_max))

/-- Ascending by cpu_max (the "CPU (low to high)" branch, lines 576-578;
the float('inf') fallback for a None cpu_max is likewise dead). -/
def rowCpuLe (x y : PodRow) : Prop := x.cpu_max ≤ y.cpu_max

instance : DecidableRel rowCpuLe := fun x y =>
  inferInstanceAs (Decidable (x.cpu_max ≤ y.cpu_max))

/-- Descending by base_name (the "Name" branch, lines 579-580: the branch
sets the key but never resets reverse, which line 569 initialised to
True, so the sort is descending). -/
def rowNameGe (x y : PodRow) : Prop := listCharLe y.base_name.toList x.base_name.toList = true

instance : DecidableRel rowNameGe := fun x y =>
  inferInstanceAs (Decidable (listCharLe y.base_name.toList x.base_name.toList = true))

/-- Descending by the (namespace, memory_max) tuple (the else branch,
lines 581-583, commented "# Namespace" in the source): Python compares
the key tuples lexicographically and reverse=True turns the stable
ascending order around, so x may precede y exactly when y's tuple is
lexicographically at most x's. -/
def rowNsMemGe (x y : PodRow) : Prop :=
  listCharLt y.pod_namespace.toList x.pod_namespace.toList = true ∨
    (y.pod_namespace = x.pod_namespace ∧ y.memory_max ≤ x.memory_max)

instance : DecidableRel rowNsMemGe := fun x y =>
  inferInstanceAs (Decidable (listCharLt y.pod_namespace.toList x.pod_namespace.toList = true ∨
    (y.pod_namespace = x.pod_namespace ∧ y.memory_max ≤ x.memory_max)))

/-- The sort dispatch of lines 567-585.  The branches test the chosen
option string in the source's order; "Memory (high to low)" matches none
of them — not even the comment of line 581 claims it — and so falls into
the else branch together with "Namespace".  Python's list.sort is stable,
so each branch is a stable insertion sort on the branch's total
preorder. -/
def sortPods (sort_option : String) (pods : List PodRow) : List PodRow :=
  if sort_option = "Memory (low to high)" then List.insertionSort rowMemLe pods
  else if sort_option = "CPU (high to low)" then List.insertionSort rowCpuGe pods
  else if sort_option = "CPU (low to high)" then List.insertionSort rowCpuLe pods
  else if sort_option = "Name" then List.insertionSort rowNameGe pods
  else List.insertionSort rowNsMemGe pods

/-! ### Concrete inputs used by counterexamples and witnesses -/

/-- A reduced row in namespace "b" with memory_max 10 (MB). -/
def rowNsB : PodRow :=
  { cluster := "c1", pod_namespace := "b", pod := "pb", memory_max := 10,
    memory_avg := 0, memory_request := 0, memory_limit := 0, memory_percent := 0,
    cpu_max := 0, cpu_avg := 0, cpu_request := 0, cpu_limit := 0, cpu_percent := 0,
    base_name := "pb" }

/-- A reduced row in namespace "a" with memory_max 100 (MB). -/
def rowNsA : PodRow :=
  { cluster := "c1", pod_namespace := "a", pod := "pa", memory_max := 100,
    memory_avg := 0, memory_request := 0, memory_limit := 0, memory_percent := 0,
    cpu_max := 0, cpu_avg := 0, cpu_request := 0, cpu_limit := 0, cpu_percent := 0,
    base_name := "pa" }

/-- A reduced row whose base name is "api-2". -/
def rowApi2 : PodRow :=
  { cluster := "c1", pod_namespace := "ns", pod := "api-2", memory_max := 50,
    memory_avg := 0, memory_request := 0, memory_limit := 0, memory_percent := 0,
    cpu_max := 0, cpu_avg := 0, cpu_request := 0, cpu_limit := 0, cpu_percent := 0,
    base_name := "api-2" }

/-- A reduced row whose base name is "api-7". -/
def rowApi7 : PodRow :=
  { cluster := "c1", pod_namespace := "ns", pod := "api-7", memory_max := 50,
    memory_avg := 0, memory_request := 0, memory_limit := 0, memory_percent := 0,
    cpu_max := 0, cpu_avg := 0, cpu_request := 0, cpu_limit := 0, cpu_percent := 0,
    base_name := "api-7" }

/-- The row the reducer emits for an entity whose only data is a single
100 MB memory-max sample (values as the code computes them: memory_max is
the sample divided by 1024 * 1024, every other metric field is the
Python-or-zero coercion of None, i.e. 0). -/
def rowWeb100 : PodRow :=
  { cluster := "unknown", pod_namespace := "unknown", pod := "web",
    memory_max := 104857600 / (1024 * 1024), memory_avg := 0, memory_request := 0,
    memory_limit := 0, memory_percent := 0, cpu_max := 0, cpu_avg := 0,
    cpu_request := 0, cpu_limit := 0, cpu_percent := 0, base_name := "web" }

/-- A concrete series for the dispatcher witness. -/
def seriesW : Series :=
  { scope := "sc", tag_set := ["pod_name:web"], pointlist := [(1, some 2)] }

/-- Two 10-second chunks for the dispatcher witness. -/
def chunksW : List (Int × Int) := [(0, 10), (10, 20)]

/-- A concrete query oracle: the memory_max query of the first chunk
raises, the memory_max query of the second chunk returns seriesW, every
other query raises. -/
def fetchW : Int × Int → String → Option (List Series) :=
  fun c m =>
    if c = (10, 20) ∧ m = "memory_max" then some [seriesW] else none

/-! ## Time Range Planner: lemmas and claims C1, C7, C8, C10 -/

theorem chunkLoop_stop (fuel : Nat) (s e : Int) (h : e ≤ s) : chunkLoop fuel s e = [] := by
  cases fuel with
  | zero => rfl
  | succ n =>
    unfold chunkLoop
    rw [if_neg (by omega)]

theorem chunkLoop_cover (fuel : Nat) :
    ∀ s e : Int, (e - s).toNat ≤ fuel → s ≤ e →
      chunksCoverB s (chunkLoop fuel s e) e = true := by
  induction fuel with
  | zero =>
    intro s e h hse
    have he : s = e := by omega
    subst he
    simp [chunkLoop, chunksCoverB]
  | succ n ih =>
    intro s e h hse
    by_cases hlt : s < e
    · unfold chunkLoop
      rw [if_pos hlt]
      rcases le_or_lt (s + chunkSize) e with hc | hc
      · rw [min_eq_left hc]
        have h1 : chunksCoverB (s + chunkSize) (chunkLoop n (s + chunkSize) e) e = true :=
          ih (s + chunkSize) e (by unfold chunkSize at *; omega)
            (by unfold chunkSize at *; omega)
        simp [chunksCoverB, h1]
        unfold chunkSize
        omega
      · rw [min_eq_right (le_of_lt hc)]
        rw [chunkLoop_stop n e e le_rfl]
        simp [chunksCoverB]
        exact hlt
    · rw [chunkLoop_stop (n + 1) s e (by omega)]
      have he : s = e := by omega
      simp [chunksCoverB, he]

theorem chunkLoop_size (fuel : Nat) :
    ∀ s e : Int, ∀ p ∈ chunkLoop fuel s e, 0 < p.2 - p.1 ∧ p.2 - p.1 ≤ chunkSize := by
  induction fuel with
  | zero => intro s e p hp; simp [chunkLoop] at hp
  | succ n ih =>
    intro s e p hp
    unfold chunkLoop at hp
    by_cases hlt : s < e
    · rw [if_pos hlt] at hp
      rcases List.mem_cons.mp hp with h | h
      · subst h
        have h1 := min_le_left (s + chunkSize) e
        have h2 : s < min (s + chunkSize) e :=
          lt_min (by unfold chunkSize; omega) hlt
        simp only []
        omega
      · exact ih _ _ p h
    · rw [if_neg hlt] at hp
      simp at hp

theorem chunkLoop_length (fuel : Nat) :
    ∀ s e : Int, (e - s).toNat ≤ fuel →
      (chunkLoop fuel s e).length = ((e - s).toNat + 86399) / 86400 := by
  induction fuel with
  | zero =>
    intro s e h
    simp [chunkLoop]
    omega
  | succ n ih =>
    intro s e h
    unfold chunkLoop
    by_cases hlt : s < e
    · rw [if_pos hlt]
      rcases le_or_lt (s + chunkSize) e with hc | hc
      · rw [min_eq_left hc]
        have hrec := ih (s + chunkSize) e (by unfold chunkSize at *; omega)
        unfold chunkSize at hc hrec ⊢
        simp only [List.length_cons, hrec]
        omega
      · rw [min_eq_right (le_of_lt hc)]
        rw [chunkLoop_stop n e e le_rfl]
        simp only [List.length_cons, List.length_nil]
        unfold chunkSize at hc
        omega
    · rw [if_neg hlt]
      simp only [List.length_nil]
      omega

theorem chunksCover_le (l : List (Int × Int)) :
    ∀ s e : Int, chunksCoverB s l e = true → s ≤ e := by
  induction l with
  | nil =>
    intro s e h
    simp [chunksCoverB] at h
    omega
  | cons p rest ih =>
    intro s e h
    obtain ⟨a, b⟩ := p
    simp [chunksCoverB] at h
    obtain ⟨⟨ha, hb⟩, hrest⟩ := h
    have := ih b e hrest
    omega

theorem chunksCover_bounds (l : List (Int × Int)) :
    ∀ s e : Int, chunksCoverB s l e = true → ∀ p ∈ l, s ≤ p.1 ∧ p.2 ≤ e := by
  induction l with
  | nil => intro s e _ p hp; simp at hp
  | cons q rest ih =>
    intro s e h p hp
    obtain ⟨a, b⟩ := q
    simp [chunksCoverB] at h
    obtain ⟨⟨ha, hb⟩, hrest⟩ := h
    subst ha
    have hbe := chunksCover_le rest b e hrest
    rcases List.mem_cons.mp hp with h | h
    · subst h
      simp
      omega
    · have := ih b e hrest p h
      omega

theorem chunksCover_mem (l : List (Int × Int)) :
    ∀ s e : Int, chunksCoverB s l e = true →
      ∀ t : Int, (∃ p ∈ l, p.1 ≤ t ∧ t < p.2) ↔ (s ≤ t ∧ t < e) := by
  induction l with
  | nil =>
    intro s e h t
    simp [chunksCoverB] at h
    simp
    omega
  | cons q rest ih =>
    intro s e h t
    obtain ⟨a, b⟩ := q
    simp [chunksCoverB] at h
    obtain ⟨⟨ha, hb⟩, hrest⟩ := h
    subst ha
    have hmem := ih b e hrest t
    have hbe := chunksCover_le rest b e hrest
    constructor
    · rintro ⟨p, hp, h1, h2⟩
      rcases List.mem_cons.mp hp with h | h
      · subst h
        simp at h1 h2
        omega
      · have := hmem.mp ⟨p, h, h1, h2⟩
        omega
    · intro hst
      by_cases htb : t < b
      · exact ⟨(a, b), List.mem_cons_self _ _, by simp; omega⟩
      · obtain ⟨p, hp, h1, h2⟩ := hmem.mpr ⟨by omega, hst.2⟩
        exact ⟨p, List.mem_cons_of_mem _ hp, h1, h2⟩

theorem chunksCover_pairwise (l : List (Int × Int)) :
    ∀ s e : Int, chunksCoverB s l e = true →
      l.Pairwise (fun p q => p.2 ≤ q.1) := by
  induction l with
  | nil => intro s e _; simp
  | cons q rest ih =>
    intro s e h
    obtain ⟨a, b⟩ := q
    simp [chunksCoverB] at h
    obtain ⟨⟨ha, hb⟩, hrest⟩ := h
    exact List.pairwise_cons.mpr
      ⟨fun p hp => (chunksCover_bounds rest b e hrest p hp).1, ih b e hrest⟩

/-- C1: for every requested range [start, end) whose duration D is
between 1 minute and 7 days, the chunking loop of get_pod_metrics (lines
110-115) produces an ordered, contiguous, non-overlapping list of
sub-windows whose union is exactly [start, end), each at most 24 hours
(86400 s) long, and there are exactly ceil(D / 24h) of them. -/
theorem chunk_plan_covers_range (s e : Int) (hmin : 60 ≤ e - s) (hmax : e - s ≤ 7 * 86400) :
    chunksCoverB s (timeChunks s e) e = true ∧
    (∀ p ∈ timeChunks s e, 0 < p.2 - p.1 ∧ p.2 - p.1 ≤ 86400) ∧
    (timeChunks s e).length = ((e - s).toNat + 86399) / 86400 ∧
    (∀ t : Int, (∃ p ∈ timeChunks s e, p.1 ≤ t ∧ t < p.2) ↔ (s ≤ t ∧ t < e)) ∧
    (timeChunks s e).Pairwise (fun p q => p.2 ≤ q.1) := by
  unfold timeChunks
  have hcov := chunkLoop_cover (e - s).toNat s e le_rfl (by omega)
  refine ⟨hcov, ?_, chunkLoop_length _ s e le_rfl, chunksCover_mem _ s e hcov,
    chunksCover_pairwise _ s e hcov⟩
  intro p hp
  have h := chunkLoop_size (e - s).toNat s e p hp
  unfold chunkSize at h
  exact h

/-- Witness for C1 at the concrete range [0, 100000): a duration of
100000 s (about 27.8 h) splits into 2 chunks, the cover check evaluates
to true, and the instant 90000 lies in one of the chunks. -/
theorem chunk_plan_covers_range_witness :
    (60 ≤ (100000 : Int) - 0 ∧ (100000 : Int) - 0 ≤ 7 * 86400) ∧
    chunksCoverB 0 (timeChunks 0 100000) 100000 = true ∧
    (timeChunks 0 100000).length = 2 ∧
    (∃ p ∈ timeChunks 0 100000, p.1 ≤ 90000 ∧ (90000 : Int) < p.2) := by
  obtain ⟨h1, _, h3, h4, _⟩ := chunk_plan_covers_range 0 100000 (by decide) (by decide)
  refine ⟨⟨by decide, by decide⟩, h1, ?_, (h4 90000).mpr (by decide)⟩
  rw [h3]
  decide

/-- C7: the planning step of get_pod_metrics (lines 103-107) raises the
range-too-large ValueError exactly when the duration now - start reaches
7 days plus the 1-minute allowance (604860 s); in particular a duration
of exactly 7 days is allowed, as the source comment "Allow exactly 7d"
states. -/
theorem range_too_large_boundary :
    (∀ now s : Int, ∀ end_time : Option Int,
      planFails (planTimeRange now (some s) end_time) = decide (604860 ≤ now - s)) ∧
    (∀ now : Int, ∀ end_time : Option Int,
      planFails (planTimeRange now (some (now - 604800)) end_time) = false) := by
  constructor
  · intro now s e
    simp only [planTimeRange, Option.getD_some]
    by_cases h : (604860 : Int) ≤ now - s
    · rw [if_pos (by unfold maxHistory; omega)]
      simp [planFails, h]
    · rw [if_neg (by unfold maxHistory; omega)]
      simp [planFails, h]
  · intro now e
    simp only [planTimeRange, Option.getD_some]
    rw [if_neg (by unfold maxHistory; omega)]
    rfl

/-- C8 counterexample: with now = 1000 and start_time = 2000 the
requested start is strictly after the effective end (= now), yet
get_pod_metrics raises no error of any kind: validation passes (a
non-positive duration is below the 7-day bound) and the chunk loop
produces the empty list, so the claimed invalid-range-order failure does
not exist in the code. -/
theorem start_ge_end_no_error_counterexample :
    planTimeRange 1000 (some 2000) none = Except.ok [] := by rfl

/-- C8 amended: for every start ≥ end (= now), the planner of
get_pod_metrics raises nothing and silently returns the empty chunk
list: the only range check (lines 104-107) rejects just durations of at
least 7 days plus 1 minute, and the while loop of lines 110-115 never
runs when start ≥ end. -/
theorem start_ge_end_ok_empty (now s : Int) (end_time : Option Int) (h : now ≤ s) :
    planTimeRange now (some s) end_time = Except.ok [] := by
  simp only [planTimeRange, Option.getD_some]
  rw [if_neg (by unfold maxHistory; omega)]
  unfold timeChunks
  have h0 : (now - s).toNat = 0 := by omega
  rw [h0]
  rfl

/-- Witness for the amended C8: now = 2500, start = 9000. -/
theorem start_ge_end_ok_empty_witness :
    (2500 : Int) ≤ 9000 ∧ planTimeRange 2500 (some 9000) (some 1) = Except.ok [] :=
  ⟨by decide, start_ge_end_ok_empty 2500 9000 (some 1) (by decide)⟩

/-- C10: the end of the planned range is always now, whatever end_time
argument get_pod_metrics receives: line 100 overwrites end_time with now
before validation and chunking, so the plan is the same for any two
end_time arguments and the produced chunks exactly cover [start, now). -/
theorem end_time_always_now (now s e1 e2 : Int) (h : s ≤ now) (hr : now - s < 604860) :
    planTimeRange now (some s) (some e1) = planTimeRange now (some s) (some e2) ∧
    planTimeRange now (some s) (some e1) = Except.ok (timeChunks s now) ∧
    chunksCoverB s (timeChunks s now) now = true := by
  have hok : planTimeRange now (some s) (some e1) = Except.ok (timeChunks s now) := by
    simp only [planTimeRange, Option.getD_some]
    rw [if_neg (by unfold maxHistory; omega)]
  exact ⟨rfl, hok, chunkLoop_cover (now - s).toNat s now le_rfl h⟩

/-- Witness for C10 with now = 7200 and two different end_time
arguments. -/
theorem end_time_always_now_witness :
    ((0 : Int) ≤ 7200 ∧ (7200 : Int) - 0 < 604860) ∧
    planTimeRange 7200 (some 0) (some 99) = planTimeRange 7200 (some 0) (some 123456) ∧
    planTimeRange 7200 (some 0) (some 99) = Except.ok (timeChunks 0 7200) := by
  obtain ⟨h1, h2, _⟩ := end_time_always_now 7200 0 99 123456 (by decide) (by decide)
  exact ⟨⟨by decide, by decide⟩, h1, h2⟩

/-! ## Series Merger: lemmas and claim C2 -/

theorem map_fst_updDict (m : List Point) (p : Point) :
    (updDict m p).map Prod.fst =
      if m.any (fun q => decide (q.1 = p.1)) then m.map Prod.fst
      else m.map Prod.fst ++ [p.1] := by
  unfold updDict
  by_cases h : m.any (fun q => decide (q.1 = p.1))
  · rw [if_pos h, if_pos h, List.map_map]
    apply List.map_congr_left
    intro q _
    by_cases hq : q.1 = p.1
    · simp [hq]
    · simp [hq]
  · rw [if_neg h, if_neg h, List.map_append]
    rfl

theorem nodup_fst_foldl_updDict (ps : List Point) :
    ∀ m : List Point, (m.map Prod.fst).Nodup → ((ps.foldl updDict m).map Prod.fst).Nodup := by
  induction ps with
  | nil => intro m h; exact h
  | cons p ps ih =>
    intro m h
    simp only [List.foldl_cons]
    apply ih
    rw [map_fst_updDict]
    by_cases hc : m.any (fun q => decide (q.1 = p.1))
    · rw [if_pos hc]; exact h
    · rw [if_neg hc]
      have hnot : p.1 ∉ m.map Prod.fst := by
        simp only [List.any_eq_true, decide_eq_true_eq] at hc
        intro hmem
        obtain ⟨q, hq, hq1⟩ := List.mem_map.mp hmem
        exact hc ⟨q, hq, hq1⟩
      simp [List.nodup_append, h, hnot]

theorem mem_fst_foldl_updDict (ps : List Point) :
    ∀ (m : List Point) (t : ℚ),
      t ∈ (ps.foldl updDict m).map Prod.fst ↔ t ∈ m.map Prod.fst ∨ t ∈ ps.map Prod.fst := by
  induction ps with
  | nil => intro m t; simp
  | cons p ps ih =>
    intro m t
    simp only [List.foldl_cons, List.map_cons, List.mem_cons]
    rw [ih, map_fst_updDict]
    by_cases hc : m.any (fun q => decide (q.1 = p.1))
    · rw [if_pos hc]
      have hp1 : p.1 ∈ m.map Prod.fst := by
        simp only [List.any_eq_true, decide_eq_true_eq] at hc
        obtain ⟨q, hq, hq1⟩ := hc
        exact List.mem_map.mpr ⟨q, hq, hq1⟩
      constructor
      · rintro (h | h)
        · exact Or.inl h
        · exact Or.inr (Or.inr h)
      · rintro (h | h | h)
        · exact Or.inl h
        · subst h; exact Or.inl hp1
        · exact Or.inr h
    · rw [if_neg hc]
      simp only [List.mem_append, List.mem_singleton]
      tauto

theorem foldl_updDict_fresh (ps : List Point) :
    ∀ m : List Point, (ps.map Prod.fst).Nodup →
      (∀ t ∈ ps.map Prod.fst, t ∉ m.map Prod.fst) →
      ps.foldl updDict m = m ++ ps := by
  induction ps with
  | nil => intro m _ _; simp
  | cons p ps ih =>
    intro m hnd hdis
    simp only [List.foldl_cons]
    have hc : ¬ m.any (fun q => decide (q.1 = p.1)) := by
      intro hc
      simp only [List.any_eq_true, decide_eq_true_eq] at hc
      obtain ⟨q, hq, hq1⟩ := hc
      exact hdis p.1 (by simp) (List.mem_map.mpr ⟨q, hq, hq1⟩)
    have hupd : updDict m p = m ++ [p] := by
      unfold updDict
      rw [if_neg hc]
    rw [hupd]
    rw [List.map_cons] at hnd hdis
    have hnd' := List.nodup_cons.mp hnd
    rw [ih (m ++ [p]) hnd'.2 ?hdis']
    · simp
    case hdis' =>
      intro t ht
      simp only [List.map_append, List.mem_append, List.map_cons, List.map_nil,
        List.mem_singleton, not_or]
      exact ⟨hdis t (List.mem_cons_of_mem _ ht), fun he => hnd'.1 (he ▸ ht)⟩

theorem map_replace_notmem (m : List Point) (p : Point) (h : p.1 ∉ m.map Prod.fst) :
    m.map (fun q => if q.1 = p.1 then p else q) = m := by
  induction m with
  | nil => rfl
  | cons q m ih =>
    simp only [List.map_cons, List.mem_cons, not_or] at h ⊢
    rw [if_neg (fun he => h.1 he.symm), ih h.2]

theorem map_replace_self (m : List Point) (p : Point)
    (hnd : (m.map Prod.fst).Nodup) (hp : p ∈ m) :
    m.map (fun q => if q.1 = p.1 then p else q) = m := by
  induction m with
  | nil => rfl
  | cons q m ih =>
    rw [List.map_cons] at hnd
    have hnd' := List.nodup_cons.mp hnd
    rcases List.mem_cons.mp hp with rfl | hp'
    · simp only [List.map_cons, if_pos rfl]
      rw [map_replace_notmem m p hnd'.1]
      simp
    · have hq : ¬ q.1 = p.1 := fun he => hnd'.1 (he ▸ List.mem_map.mpr ⟨p, hp', rfl⟩)
      simp only [List.map_cons, if_neg hq]
      rw [ih hnd'.2 hp']

theorem foldl_updDict_self (ps : List Point) :
    ∀ m : List Point, (m.map Prod.fst).Nodup → (∀ p ∈ ps, p ∈ m) →
      ps.foldl updDict m = m := by
  induction ps with
  | nil => intro m _ _; rfl
  | cons p ps ih =>
    intro m hnd hall
    simp only [List.foldl_cons]
    have hp := hall p (by simp)
    have hc : m.any (fun q => decide (q.1 = p.1)) := by
      simp only [List.any_eq_true, decide_eq_true_eq]
      exact ⟨p, hp, rfl⟩
    have hupd : updDict m p = m := by
      unfold updDict
      rw [if_pos hc]
      exact map_replace_self m p hnd hp
    rw [hupd]
    exact ih m hnd (fun q hq => hall q (by simp [hq]))

theorem pairwise_lt_of_le_of_ne {l : List ℚ} (h1 : l.Pairwise (· ≤ ·)) (h2 : l.Nodup) :
    l.Pairwise (· < ·) := by
  induction l with
  | nil => simp
  | cons a l ih =>
    rw [List.pairwise_cons] at h1 ⊢
    rw [List.nodup_cons] at h2
    refine ⟨fun b hb => lt_of_le_of_ne (h1.1 b hb) ?_, ih h1.2 h2.2⟩
    intro he
    exact h2.1 (he ▸ hb)

theorem listCharLe_total : ∀ a b : List Char, listCharLe a b = true ∨ listCharLe b a = true := by
  intro a
  induction a with
  | nil => intro b; left; simp [listCharLe]
  | cons x as ih =>
    intro b
    cases b with
    | nil => right; simp [listCharLe]
    | cons y bs =>
      rcases lt_trichotomy x y with h | h | h
      · left; simp [listCharLe, h]
      · subst h
        rcases ih bs with h | h
        · left; simp [listCharLe, lt_irrefl, h]
        · right; simp [listCharLe, lt_irrefl, h]
      · right; simp [listCharLe, h]

theorem listCharLe_trans :
    ∀ a b c : List Char, listCharLe a b = true → listCharLe b c = true →
      listCharLe a c = true := by
  intro a
  induction a with
  | nil => intro b c _ _; simp [listCharLe]
  | cons x as ih =>
    intro b c h1 h2
    cases b with
    | nil => simp [listCharLe] at h1
    | cons y bs =>
      cases c with
      | nil => simp [listCharLe] at h2
      | cons z cs =>
        by_cases hxy : x < y
        · by_cases hyz : y < z
          · simp [listCharLe, lt_trans hxy hyz]
          · by_cases hzy : z < y
            · simp [listCharLe, hyz, hzy] at h2
            · have hyzeq : y = z := le_antisymm (le_of_not_lt hzy) (le_of_not_lt hyz)
              subst hyzeq
              simp [listCharLe, hxy]
        · by_cases hyx : y < x
          · simp [listCharLe, hxy, hyx] at h1
          · have hxyeq : x = y := le_antisymm (le_of_not_lt hyx) (le_of_not_lt hxy)
            subst hxyeq
            by_cases hxz : x < z
            · simp [listCharLe, hxz]
            · by_cases hzx : z < x
              · simp [listCharLe, hxz, hzx] at h2
              · have hxzeq : x = z := le_antisymm (le_of_not_lt hzx) (le_of_not_lt hxz)
                subst hxzeq
                simp only [listCharLe, lt_irrefl, if_false] at h1 h2 ⊢
                exact ih bs cs h1 h2

theorem listCharLe_antisymm :
    ∀ a b : List Char, listCharLe a b = true → listCharLe b a = true → a = b := by
  intro a
  induction a with
  | nil =>
    intro b h1 h2
    cases b with
    | nil => rfl
    | cons y bs => simp [listCharLe] at h2
  | cons x as ih =>
    intro b h1 h2
    cases b with
    | nil => simp [listCharLe] at h1
    | cons y bs =>
      by_cases hxy : x < y
      · simp [listCharLe, hxy, lt_asymm hxy] at h2
      · by_cases hyx : y < x
        · simp [listCharLe, hxy, hyx] at h1
        · have hxyeq : x = y := le_antisymm (le_of_not_lt hyx) (le_of_not_lt hxy)
          subst hxyeq
          simp only [listCharLe, lt_irrefl, if_false] at h1 h2
          rw [ih bs h1 h2]

/-- C2: merging two point lists for the same EntityKey (lines 184-195)
yields a point list with exactly one point per distinct timestamp (the
timestamps are pairwise distinct and exactly those of the inputs) sorted
strictly ascending by timestamp; merging a timestamp-unique, time-sorted
series with itself gives the series back unchanged; and the merge key of
lines 180/186 compares the tag set order-insensitively (any permutation
of the tags yields the same EntityKey). -/
theorem merge_dedup_sorted_idempotent (a b : List Point)
    (scope : String) (tags1 tags2 : List String) (pts : List Point)
    (ha : (a.map Prod.fst).Pairwise (· < ·))
    (hperm : tags1.Perm tags2) :
    ((mergePoints a b).map Prod.fst).Pairwise (· < ·) ∧
    (∀ t : ℚ, t ∈ (mergePoints a b).map Prod.fst ↔ t ∈ (a ++ b).map Prod.fst) ∧
    mergePoints a a = a ∧
    seriesKey ⟨scope, tags1, pts⟩ = seriesKey ⟨scope, tags2, pts⟩ := by
  have htot : IsTotal Point ptLe := ⟨fun p q => le_total p.1 q.1⟩
  have htrans : IsTrans Point ptLe := ⟨fun p q r h1 h2 => le_trans h1 h2⟩
  have hnodup : ((dedupByTs (a ++ b)).map Prod.fst).Nodup :=
    nodup_fst_foldl_updDict (a ++ b) [] (by simp)
  have hpermsort : (sortByTs (dedupByTs (a ++ b))).Perm (dedupByTs (a ++ b)) :=
    List.perm_insertionSort ptLe _
  have hsorted : List.Sorted ptLe (sortByTs (dedupByTs (a ++ b))) :=
    @List.sorted_insertionSort Point ptLe _ htot htrans _
  have hnodup' : ((mergePoints a b).map Prod.fst).Nodup :=
    (List.Perm.nodup_iff (hpermsort.map Prod.fst)).mpr hnodup
  refine ⟨?_, ?_, ?_, ?_⟩
  · exact pairwise_lt_of_le_of_ne (List.pairwise_map.mpr hsorted) hnodup'
  · intro t
    unfold mergePoints
    rw [(hpermsort.map Prod.fst).mem_iff]
    have := mem_fst_foldl_updDict (a ++ b) [] t
    simpa [dedupByTs] using this
  · have hka : (a.map Prod.fst).Nodup := ha.imp (fun h => ne_of_lt h)
    have hdfresh : a.foldl updDict [] = a := by
      have := foldl_updDict_fresh a [] hka (by simp)
      simpa using this
    have hdself : a.foldl updDict a = a :=
      foldl_updDict_self a a hka (fun p hp => hp)
    have hdedup : dedupByTs (a ++ a) = a := by
      unfold dedupByTs
      rw [List.foldl_append, hdfresh, hdself]
    have hsa : List.Sorted ptLe a :=
      (List.pairwise_map.mp ha).imp (fun h => le_of_lt h)
    unfold mergePoints
    rw [hdedup]
    exact List.Sorted.insertionSort_eq hsa
  · unfold seriesKey
    have h1 : (List.insertionSort strLe tags1).Perm (List.insertionSort strLe tags2) :=
      ((List.perm_insertionSort strLe tags1).trans hperm).trans
        (List.perm_insertionSort strLe tags2).symm
    have hstot : IsTotal String strLe := ⟨fun x y => listCharLe_total x.toList y.toList⟩
    have hstrans : IsTrans String strLe :=
      ⟨fun x y z hxy hyz => listCharLe_trans x.toList y.toList z.toList hxy hyz⟩
    have hanti : IsAntisymm String strLe :=
      ⟨fun x y hxy hyx => String.ext (listCharLe_antisymm x.toList y.toList hxy hyx)⟩
    have heq : List.insertionSort strLe tags1 = List.insertionSort strLe tags2 :=
      @List.eq_of_perm_of_sorted String strLe hanti _ _ h1
        (@List.sorted_insertionSort String strLe _ hstot hstrans tags1)
        (@List.sorted_insertionSort String strLe _ hstot hstrans tags2)
    rw [heq]

/-- Witness for C2 on concrete series: two overlapping three-point lists
merge into a strictly ascending, duplicate-free list; self-merge returns
the series unchanged; permuted tag sets give the same key. -/
theorem merge_dedup_sorted_idempotent_witness :
    (([((1 : ℚ), some (5 : ℚ)), (3, none), (7, some 2)].map Prod.fst).Pairwise (· < ·) ∧
      ["x:1", "y:2"].Perm ["y:2", "x:1"]) ∧
    ((mergePoints [((1 : ℚ), some (5 : ℚ)), (3, none), (7, some 2)]
        [(3, some 9), (12, none)]).map Prod.fst).Pairwise (· < ·) ∧
    mergePoints [((1 : ℚ), some (5 : ℚ)), (3, none), (7, some 2)]
        [((1 : ℚ), some (5 : ℚ)), (3, none), (7, some 2)] =
      [((1 : ℚ), some (5 : ℚ)), (3, none), (7, some 2)] ∧
    seriesKey ⟨"sc", ["x:1", "y:2"], []⟩ = seriesKey ⟨"sc", ["y:2", "x:1"], []⟩ := by
  obtain ⟨h1, _, h3, h4⟩ :=
    merge_dedup_sorted_idempotent
      [((1 : ℚ), some (5 : ℚ)), (3, none), (7, some 2)]
      [(3, some 9), (12, none)] "sc" ["x:1", "y:2"] ["y:2", "x:1"] []
      (by decide) (by decide)
  exact ⟨⟨by decide, by decide⟩, h1, h3, h4⟩

/-! ## Metric Query Dispatcher: claim C6 -/

theorem runDispatch_foldl (fetch : Int × Int → String → Option (List Series)) :
    ∀ (chunks : List (Int × Int)) (st : String → Option (List Series)) (m : String),
      m ∈ logicalMetrics →
      (chunks.foldl (fun st c => processChunk fetch c st) st) m =
        (chunks.filterMap (fun c => fetch c m)).foldl mergeStep (st m) := by
  intro chunks
  induction chunks with
  | nil => intro st m _; rfl
  | cons c cs ih =>
    intro st m hm
    simp only [List.foldl_cons]
    rw [ih (processChunk fetch c st) m hm]
    cases hf : fetch c m with
    | none =>
      simp only [processChunk, if_pos hm, hf, List.filterMap_cons]
    | some res =>
      simp only [processChunk, if_pos hm, hf, List.filterMap_cons, List.foldl_cons]

/-- C6: a failure of the external service for one metric in one
sub-window is non-fatal.  For every query oracle, every chunk list and
every logical metric, the final result for that metric is exactly the
fold of the successfully returned series lists over the chunks in order:
a raising query contributes nothing for its (metric, window) slot, the
loop still processes every remaining (metric, window) pair, and failures
of other metrics or windows never affect the result.  In the embedding
the dispatcher is a total function — no per-query exception escapes it,
matching the source where only the credential setup and the range check
can raise out of the pipeline. -/
theorem dispatch_partial_failure (fetch : Int × Int → String → Option (List Series))
    (chunks : List (Int × Int)) (m : String) (hm : m ∈ logicalMetrics) :
    runDispatch fetch chunks m =
      (chunks.filterMap (fun c => fetch c m)).foldl mergeStep none := by
  unfold runDispatch
  exact runDispatch_foldl fetch chunks (fun _ => none) m hm

/-- Witness for C6: the memory_max query of the first chunk raises, yet
the dispatcher still records the second chunk's series for memory_max. -/
theorem dispatch_partial_failure_witness :
    ("memory_max" ∈ logicalMetrics ∧ fetchW (0, 10) "memory_max" = none) ∧
    runDispatch fetchW chunksW "memory_max" = some [seriesW] := by
  have h := dispatch_partial_failure fetchW chunksW "memory_max" (by decide)
  refine ⟨⟨by decide, by decide⟩, ?_⟩
  rw [h]
  decide

/-! ## Entity Reducer: lemmas and claims C3, C4 -/

theorem findSome_snd_head (l : List Point) :
    l.findSome? Prod.snd = ((l.filter (fun p => p.2.isSome)).head?).bind Prod.snd := by
  induction l with
  | nil => rfl
  | cons p l ih =>
    cases hp : p.2 with
    | none => simp [List.findSome?_cons, hp, List.filter_cons, ih]
    | some v => simp [List.findSome?_cons, hp, List.filter_cons]

/-- The reversed scan of the extraction loop returns the value of the
last (i.e. most recent, the merged lists being time-ascending) point
whose value is non-null, and none when every point is null. -/
theorem latestNonNull_eq_getLast (ps : List Point) :
    latestNonNull ps = ((ps.filter (fun p => p.2.isSome)).getLast?).bind Prod.snd := by
  unfold latestNonNull
  rw [findSome_snd_head]
  congr 1
  rw [List.filter_reverse, List.head?_reverse]

theorem findSome_snd_map (l : List Point) :
    l.findSome? Prod.snd = (l.map Prod.snd).findSome? id := by
  induction l with
  | nil => rfl
  | cons p l ih =>
    cases hp : p.2 with
    | none => simp [List.findSome?_cons, hp, ih]
    | some v => simp [List.findSome?_cons, hp]

theorem latestNonNull_congr {ps qs : List Point} (h : ps.map Prod.snd = qs.map Prod.snd) :
    latestNonNull ps = latestNonNull qs := by
  unfold latestNonNull
  rw [findSome_snd_map, findSome_snd_map, List.map_reverse, List.map_reverse, h]

/-- The reduced row never depends on the timestamps of the CPU-max
series, only on its value sequence: the local latest_cpu_timestamp of
line 511 is dead and no status is derived from it. -/
theorem reduce_ignores_cpu_timestamps (threshold : ℚ) (scope : String) (tag_set : List String)
    (mm ma mr ml ca cr cl : List Point) (cpuA cpuB : List Point)
    (h : cpuA.map Prod.snd = cpuB.map Prod.snd) :
    reduceEntity threshold scope tag_set mm ma mr ml cpuA ca cr cl =
      reduceEntity threshold scope tag_set mm ma mr ml cpuB ca cr cl := by
  simp only [reduceEntity]
  rw [latestNonNull_congr h]

/-- C4 (code bug): the rows the reducer emits carry no status field at
all (PodRow lists the dict keys of lines 550-565 exhaustively), and the
recency of the CPU-max samples cannot influence the row: here one entity
whose only CPU-max sample is 30 s old (timestamp 999970000 ms against
now = 1000000 s) and one whose sample is 90 s old (999910000 ms) produce
literally identical rows, where the claim required status Active for the
first and Completed for the second.  The code computes the most recent
CPU timestamp (line 511) but never uses it. -/
theorem no_status_field_cpu_recency_irrelevant :
    reduceEntity 0 "sc" ["pod_name:web"] [(0, some 104857600)] [] [] []
        [((999970000 : ℚ), some 5000000000)] [] [] [] =
      reduceEntity 0 "sc" ["pod_name:web"] [(0, some 104857600)] [] [] []
        [((999910000 : ℚ), some 5000000000)] [] [] [] :=
  reduce_ignores_cpu_timestamps 0 "sc" ["pod_name:web"]
    [(0, some 104857600)] [] [] [] [] [] [] _ _ rfl

/-- C3 counterexample: for the spec's own example entity — a single
memory-max sample of 100 MB (104857600 bytes), no other data — the
reduced row has memory_percent, memory_limit and memory_request all
defined and equal to 0 (the or-0 coercions of lines 555-558), where the
claim required them to be undefined, not zero. -/
theorem reduced_row_zero_fields_counterexample :
    reduceEntity 0 "sc" ["pod_name:web"] [((0 : ℚ), some 104857600)] [] [] [] [] [] [] [] =
      some rowWeb100 ∧
    rowWeb100.memory_percent = 0 ∧ rowWeb100.memory_limit = 0 ∧
    rowWeb100.memory_request = 0 ∧ rowWeb100.memory_max = 100 := by
  refine ⟨?_, rfl, rfl, rfl, by norm_num [rowWeb100]⟩
  exact if_neg (show ¬ ((104857600 : ℚ) / (1024 * 1024) < 0) by norm_num)

/-- C3 amended: each metric field is extracted as the value of the most
recent non-null point of its series (the reversed scan returns the last
non-null value), but in the emitted row a missing extraction is replaced
by 0 through the or-0 coercions of lines 555-563 rather than left
undefined (memory_max alone is always present, since entities without it
are skipped), and memory_percent is likewise 0 — not undefined — when the
limit is absent.  For the example entity with a single memory-max sample
of v bytes and nothing else, the row has memory_max = v / 2^20 and
memory_percent = memory_limit = memory_request = 0. -/
theorem reduced_row_latest_nonnull_or_zero
    (ps : List Point) (threshold t v : ℚ) (scope : String) (tags : List String)
    (h : threshold ≤ v / (1024 * 1024)) :
    latestNonNull ps = ((ps.filter (fun p => p.2.isSome)).getLast?).bind Prod.snd ∧
    ∃ row : PodRow,
      reduceEntity threshold scope tags [(t, some v)] [] [] [] [] [] [] [] = some row ∧
      row.memory_max = v / (1024 * 1024) ∧
      row.memory_percent = 0 ∧ row.memory_limit = 0 ∧ row.memory_request = 0 ∧
      row.memory_avg = 0 ∧ row.cpu_max = 0 := by
  refine ⟨latestNonNull_eq_getLast ps,
    ⟨{ cluster := tagLookup tags "kube_cluster_name",
       pod_namespace := tagLookup tags "kube_namespace",
       pod := tagLookup tags "pod_name",
       memory_max := v / (1024 * 1024),
       memory_avg := 0, memory_request := 0, memory_limit := 0, memory_percent := 0,
       cpu_max := 0, cpu_avg := 0, cpu_request := 0, cpu_limit := 0, cpu_percent := 0,
       base_name := get_base_pod_name (tagLookup tags "pod_name") },
     ?_, rfl, rfl, rfl, rfl, rfl, rfl⟩⟩
  exact if_neg (not_lt.mpr h)

/-- Witness for the amended C3 at threshold 0, a 104857600-byte sample
and a two-point series for the extraction clause. -/
theorem reduced_row_latest_nonnull_or_zero_witness :
    ((0 : ℚ) ≤ 104857600 / (1024 * 1024)) ∧
    latestNonNull [((5 : ℚ), some (7 : ℚ)), (9, none)] = some 7 ∧
    (∃ row : PodRow,
      reduceEntity 0 "sc" ["pod_name:web"] [((1 : ℚ), some 104857600)] [] [] [] [] [] [] [] =
        some row ∧
      row.memory_max = 104857600 / (1024 * 1024) ∧
      row.memory_percent = 0 ∧ row.memory_limit = 0 ∧ row.memory_request = 0 ∧
      row.memory_avg = 0 ∧ row.cpu_max = 0) := by
  obtain ⟨h1, h2⟩ :=
    reduced_row_latest_nonnull_or_zero [((5 : ℚ), some (7 : ℚ)), (9, none)]
      0 1 104857600 "sc" ["pod_name:web"] (by positivity)
  exact ⟨by positivity, h1.trans rfl, h2⟩

/-! ## Row Sorter: claims C5 and C9 -/

/-- C5 (code bug): selecting "Memory (high to low)" does not sort by
memory_max descending.  The option matches no branch of the dispatch of
lines 571-583 and falls into the else branch commented "# Namespace", so
it sorts by the (namespace, memory_max) tuple descending — identical to
choosing "Namespace" — and on rows (namespace "b", 10 MB) and (namespace
"a", 100 MB) it returns the 10 MB row first, memory ascending, because
"b" > "a" dominates the comparison. -/
theorem memory_high_low_misdispatch :
    (∀ pods : List PodRow, sortPods "Memory (high to low)" pods = sortPods "Namespace" pods) ∧
    sortPods "Memory (high to low)" [rowNsB, rowNsA] = [rowNsB, rowNsA] ∧
    rowNsB.memory_max < rowNsA.memory_max := by
  exact ⟨fun pods => rfl, by decide, by decide⟩

/-- C9 (code bug): the "Name" branch (lines 579-580) sets the sort key
to base_name but never resets the reverse flag initialised to True at
line 569, so the rows come out in descending lexicographic order of
base_name: the output is always sorted with the later name first, and on
the claim's own example the rows with base names "api-2" and "api-7"
come out as "api-7", "api-2" — the reverse of the claimed ascending
order. -/
theorem name_sort_descending :
    (∀ pods : List PodRow, (sortPods "Name" pods).Pairwise rowNameGe) ∧
    sortPods "Name" [rowApi2, rowApi7] = [rowApi7, rowApi2] := by
  constructor
  · intro pods
    exact @List.sorted_insertionSort PodRow rowNameGe _
      ⟨fun x y => listCharLe_total y.base_name.toList x.base_name.toList⟩
      ⟨fun x y z h1 h2 => listCharLe_trans z.base_name.toList y.base_name.toList
        x.base_name.toList h2 h1⟩ pods
  · decide
